import Mathlib

/-!
Verification of the rule-evaluation core of the GCS character-management tool
(`model/gurps`): the nameable-substitution engine (`nameables.go`), the
`SkillDefault` resolver and hasher, the `ContainedWeightPrereq` evaluator
(`contained_weight_prereq.go`), and the `WeaponBonus` feature-map-key
computation.

Modelling conventions:
- Go strings are modelled as `List Char` (`Str`).  The byte stream written to
  a hasher is modelled as `List Nat`, a string contributing the codes of its
  characters (faithful for the ASCII inputs the claims exercise, and
  UTF-8 encoding is injective, so equality/inequality of streams is preserved).
- Go `map[string]string` is modelled as a lookup function `Str → Option Str`
  where the source only inserts and looks up (`ExtractNameables`), and as an
  association list (a fixed iteration order) where the source iterates over
  the map (`ApplyNameables`); Go's map iteration order is unspecified, so an
  association list fixes one order, as the spec itself requires determinism
  only "for a fixed map iteration order".
- `fxp.Int` (the repository's fixed-point numeric package, not under `src/`)
  is modelled from the spec as `Int`: §4.5 describes levels as numbers and
  halving as `floor(level / 2)`, so `Div(Two).Trunc()` is modelled as integer
  floor division by 2 (`Int` division in Lean is Euclidean, i.e. floor for a
  positive divisor).  `fxp.Min` is the `int64` minimum.
-/

/-- Go strings, modelled as lists of characters. -/
abbrev Str := List Char

/-! ### Nameable substitution engine (`model/gurps/nameables.go`) -/

/-- `leadsWith p s` is true when `p` is a leading segment of `s`
(the prefix test used by Go's string search). -/
def leadsWith : Str → Str → Bool
  | [], _ => true
  | _ :: _, [] => false
  | a :: as, b :: bs => a = b && leadsWith as bs

/-- `occursWithin p s` is true when `p` occurs as a contiguous segment of `s`. -/
def occursWithin (p : Str) : Str → Bool
  | [] => p.isEmpty
  | c :: rest => leadsWith p (c :: rest) || occursWithin p rest

/-- Fuel-bounded core of Go's `strings.ReplaceAll`: replaces non-overlapping
occurrences of `p` by `v`, scanning left to right.  Each step consumes at
least one character, so fuel equal to the string's length suffices. -/
def replaceAllAux (p v : Str) : Nat → Str → Str
  | 0, s => s
  | _ + 1, [] => []
  | fuel + 1, c :: rest =>
    if p ≠ [] ∧ leadsWith p (c :: rest) then
      v ++ replaceAllAux p v fuel ((c :: rest).drop p.length)
    else
      c :: replaceAllAux p v fuel rest

/-- Go's `strings.ReplaceAll(s, p, v)` for a non-empty pattern `p`. -/
def replaceAll (s p v : Str) : Str :=
  replaceAllAux p v s.length s

/-- Go's `strings.Split(s, "@")` specialised to a single-character separator:
splits `s` on every occurrence of `sep`. -/
def splitOnChar (sep : Char) : Str → List Str
  | [] => [[]]
  | c :: rest =>
    match splitOnChar sep rest with
    | [] => if c = sep then [[], []] else [[c]]
    | g :: gs => if c = sep then [] :: g :: gs else (c :: g) :: gs

/-- `ExtractNameables` (`nameables.go:36-50`): when the marker `@` occurs more
than once, every odd-indexed split segment whose index is below the marker
count becomes a key of `m`, mapped to `existing[key]` when present and to the
key itself otherwise. -/
def ExtractNameables (str : Str) (m existing : Str → Option Str) : Str → Option Str :=
  let count := str.count '@'
  if count > 1 then
    (splitOnChar '@' str).enum.foldl
      (fun m' p =>
        if p.1 % 2 = 1 ∧ p.1 < count then
          fun k => if k = p.2 then some ((existing p.2).getD p.2) else m' k
        else m') m
  else m

/-- `ApplyNameables` (`nameables.go:53-60`): when the marker `@` occurs more
than once, replaces every occurrence of `@key@` by the key's value, iterating
the map entries in order. -/
def ApplyNameables (str : Str) (m : List (Str × Str)) : Str :=
  if str.count '@' > 1 then
    m.foldl (fun s kv => replaceAll s ('@' :: (kv.1 ++ ['@'])) kv.2) str
  else str

/-- The candidate keys of a string, as the spec describes them: the split
segments at odd 0-based index strictly below the number of `@` occurrences. -/
def extractCandidates (str : Str) : List Str :=
  ((splitOnChar '@' str).enum.filter
    (fun p => decide (p.1 % 2 = 1 ∧ p.1 < str.count '@'))).map Prod.snd

example : splitOnChar '@' ("@ST@ is strong".toList) =
    ["".toList, "ST".toList, " is strong".toList] := by decide
example : extractCandidates ("@ST@ is strong".toList) = ["ST".toList] := by decide
example : ApplyNameables ("@ST@ is strong".toList) [("ST".toList, "14".toList)] =
    "14 is strong".toList := by decide

/-! ### SkillDefault (`model/gurps/contained_weight_prereq.go`, second unit) -/

/-- Modelled from the spec: the identifier constants `SkillID`, `ParryID`,
`BlockID`, `DodgeID` are declared elsewhere in the repository (not under
`src/`); §4.5 gives the closed `DefaultType` space
`{Skill, Parry, Block, Dodge, <attribute-id>}`, with lowercase identifiers. -/
def SkillID : Str := "skill".toList

/-- Modelled from the spec: see `SkillID`. -/
def ParryID : Str := "parry".toList

/-- Modelled from the spec: see `SkillID`. -/
def BlockID : Str := "block".toList

/-- Modelled from the spec: see `SkillID`. -/
def DodgeID : Str := "dodge".toList

/-- `SkillDefault` (`DefaultType`, `Name`, `Specialization`, `Modifier` are
source fields; `Level`, `AdjLevel`, `Points` are transient computed fields). -/
structure SkillDefault where
  DefaultType : Str
  Name : Str
  Specialization : Str
  Modifier : Int
  Level : Int
  AdjLevel : Int
  Points : Int
deriving DecidableEq

/-- ASCII model of Go's `strings.ToLower`. -/
def toLowerStr (s : Str) : Str := s.map Char.toLower

/-- Whitespace test used by the model of Go's `strings.TrimSpace`. -/
def isSpaceChar (c : Char) : Bool := c = ' ' || c = '\t' || c = '\n' || c = '\r'

/-- Model of Go's `strings.TrimSpace`: drops leading and trailing whitespace. -/
def trimSpace (s : Str) : Str :=
  ((s.dropWhile isSpaceChar).reverse.dropWhile isSpaceChar).reverse

/-- The `skillBasedDefaultTypes` map: true exactly on the three skill-family
identifiers (a Go map lookup defaults to `false`). -/
def skillBasedDefaultTypes (u : Str) : Bool :=
  u = SkillID || u = ParryID || u = BlockID

/-- `DefaultTypeIsSkillBased`: looks the trimmed, lowercased type up in
`skillBasedDefaultTypes`. -/
def DefaultTypeIsSkillBased (skillDefaultType : Str) : Bool :=
  skillBasedDefaultTypes (toLowerStr (trimSpace skillDefaultType))

/-- `SkillDefault.SkillBased`: same lookup on the `DefaultType` field. -/
def SkillDefault.SkillBased (s : SkillDefault) : Bool :=
  skillBasedDefaultTypes (toLowerStr (trimSpace s.DefaultType))

/-- `SkillDefault.CloneWithoutLevelOrPoints`: a copy with `Level`, `AdjLevel`
and `Points` zeroed.  (The Go method copies the struct through a fresh
pointer and never writes through the receiver, which the purely functional
embedding reflects by construction: the argument value is unchanged.) -/
def SkillDefault.CloneWithoutLevelOrPoints (s : SkillDefault) : SkillDefault :=
  { s with Level := 0, AdjLevel := 0, Points := 0 }

/-- The bytes a Go string contributes to a hasher. -/
def strBytes (s : Str) : List Nat := s.map Char.toNat

/-- Little-endian base-256 digits, `w` bytes wide. -/
def leBytes : Nat → Nat → List Nat
  | 0, _ => []
  | w + 1, n => n % 256 :: leBytes w (n / 256)

/-- The 8 bytes `binary.Write(h, binary.LittleEndian, ·)` emits for an
`int64`-valued field. -/
def int64LE (m : Int) : List Nat := leBytes 8 (m % 18446744073709551616).toNat

/-- `SkillDefault.Hash` (`contained_weight_prereq.go:310-315`), as the byte
sequence written to the hasher: `DefaultType`, `Name`, `Specialization` as raw
string bytes, then `Modifier` as 8 little-endian bytes.  `Level`, `AdjLevel`
and `Points` are not written. -/
def SkillDefault.hashStream (s : SkillDefault) : List Nat :=
  strBytes s.DefaultType ++ strBytes s.Name ++ strBytes s.Specialization ++ int64LE s.Modifier

/-! ### Entity view and the skill-default resolver -/

/-- The `int64` minimum, the value of the `fxp.Min` sentinel. -/
def fxpMin : Int := -9223372036854775808

/-- Modelled from the spec: a skill as the resolver sees it — `Skill` itself is
not under `src/`.  §4.5 requires a cached level (`LevelData.Level`) read by the
fast path and a recomputation (`CalculateLevel(excludes).Level`) used by the
full path. -/
structure Skill where
  levelDataLevel : Int
  calculateLevel : (Str → Bool) → Int

/-- Modelled from the spec: sheet settings view (§6); only the
`UseHalfStatDefaults` toggle is consulted by the code under `src/`. -/
structure SheetSettings where
  useHalfStatDefaults : Bool

/-- Modelled from the spec: the `Entity` view (§6) — "current attribute
values, encumbrance level, Parry/Block bonuses, and a
skill-lookup-by-name-and-specialization operation". -/
structure Entity where
  parryBonus : Int
  blockBonus : Int
  skillNamed : Str → Str → Bool → (Str → Bool) → List Skill
  dodge : Nat → Int
  encumbranceLevel : Bool → Nat
  resolveAttributeCurrent : Str → Int
  sheetSettings : SheetSettings

/-- `SkillDefault.NameWithReplacements`. -/
def SkillDefault.NameWithReplacements (s : SkillDefault) (replacements : List (Str × Str)) : Str :=
  ApplyNameables s.Name replacements

/-- `SkillDefault.SpecializationWithReplacements`. -/
def SkillDefault.SpecializationWithReplacements (s : SkillDefault) (replacements : List (Str × Str)) : Str :=
  ApplyNameables s.Specialization replacements

/-- Modelled from the spec: `fxp` halving (`Div(fxp.Two).Trunc()`) — §4.5:
"effective level = floor(best-matching-skill-level / 2) + 3". -/
def fxpHalf (x : Int) : Int := x / 2

/-- `SkillDefault.finalLevel`: adds `Modifier` unless the level is the
`fxp.Min` sentinel, which passes through unchanged. -/
def SkillDefault.finalLevel (s : SkillDefault) (level : Int) : Int :=
  if level ≠ fxpMin then level + s.Modifier else level

/-- `SkillDefault.best`: scans the matching skills, recomputing a skill's
level only when its cached level beats the best so far, and keeping the
recomputed level only when it still beats the best so far. -/
def SkillDefault.best (s : SkillDefault) (entity : Entity) (replacements : List (Str × Str))
    (requirePoints : Bool) (excludes : Str → Bool) : Int :=
  (entity.skillNamed (s.NameWithReplacements replacements)
      (s.SpecializationWithReplacements replacements) requirePoints excludes).foldl
    (fun best sk =>
      if best < sk.levelDataLevel then
        let level := sk.calculateLevel excludes
        if best < level then level else best
      else best)
    fxpMin

/-- `SkillDefault.bestFast`: scans the matching skills trusting each cached
level. -/
def SkillDefault.bestFast (s : SkillDefault) (entity : Entity) (replacements : List (Str × Str))
    (requirePoints : Bool) (excludes : Str → Bool) : Int :=
  (entity.skillNamed (s.NameWithReplacements replacements)
      (s.SpecializationWithReplacements replacements) requirePoints excludes).foldl
    (fun best sk => if best < sk.levelDataLevel then sk.levelDataLevel else best)
    fxpMin

/-- `SkillDefault.SkillLevelFast` (`contained_weight_prereq.go:256-288`):
dispatches on the raw `DefaultType`; `Dodge` derives from encumbrance,
`Parry`/`Block` halve the best cached skill level and add 3 and the entity's
bonus, `Skill` takes the best cached level, and anything else is an attribute
identifier (optionally capped at 20 and optionally halved-and-offset). -/
def SkillDefault.SkillLevelFast (s : SkillDefault) (entity : Entity)
    (replacements : List (Str × Str)) (requirePoints : Bool) (excludes : Str → Bool)
    (ruleOf20 : Bool) : Int :=
  if s.DefaultType = DodgeID then
    let level := entity.dodge (entity.encumbranceLevel false)
    let level := if ruleOf20 ∧ level > 20 then 20 else level
    s.finalLevel level
  else if s.DefaultType = ParryID then
    let best := s.bestFast entity replacements requirePoints excludes
    s.finalLevel (if best ≠ fxpMin then fxpHalf best + 3 + entity.parryBonus else best)
  else if s.DefaultType = BlockID then
    let best := s.bestFast entity replacements requirePoints excludes
    s.finalLevel (if best ≠ fxpMin then fxpHalf best + 3 + entity.blockBonus else best)
  else if s.DefaultType = SkillID then
    s.finalLevel (s.bestFast entity replacements requirePoints excludes)
  else
    let level := entity.resolveAttributeCurrent s.DefaultType
    let level := if ruleOf20 then min level 20 else level
    let level := if entity.sheetSettings.useHalfStatDefaults then fxpHalf level + 5 else level
    s.finalLevel level

/-- `SkillDefault.SkillLevel` (`contained_weight_prereq.go:220-239`): like the
fast path but recomputing candidate skill levels through `best`, and
delegating every non-skill-family type to `SkillLevelFast`. -/
def SkillDefault.SkillLevel (s : SkillDefault) (entity : Entity)
    (replacements : List (Str × Str)) (requirePoints : Bool) (excludes : Str → Bool)
    (ruleOf20 : Bool) : Int :=
  if s.DefaultType = ParryID then
    let best := s.best entity replacements requirePoints excludes
    s.finalLevel (if best ≠ fxpMin then fxpHalf best + 3 + entity.parryBonus else best)
  else if s.DefaultType = BlockID then
    let best := s.best entity replacements requirePoints excludes
    s.finalLevel (if best ≠ fxpMin then fxpHalf best + 3 + entity.blockBonus else best)
  else if s.DefaultType = SkillID then
    s.finalLevel (s.best entity replacements requirePoints excludes)
  else
    s.SkillLevelFast entity replacements requirePoints excludes ruleOf20

/-! ### ContainedWeightPrereq (`model/gurps/contained_weight_prereq.go`, first unit) -/

/-- Modelled from the spec: the weight-criterion comparison operators (§3:
`AtLeast`, `AtMost`, `Equals`, `Any` for numeric/weight); the `criteria`
package is not under `src/`. -/
inductive WeightCompareType
  | any
  | equals
  | atLeast
  | atMost
deriving DecidableEq

/-- Modelled from the spec: a weight criterion — a comparison operator plus a
stored qualifier (§3); weights are modelled as integers in the sheet's
default units. -/
structure WeightCriteria where
  compare : WeightCompareType
  qualifier : Int
deriving DecidableEq

/-- Modelled from the spec: `Matches` compares the value's natural ordering
against the qualifier; `Any` always matches (§4.1, §3). -/
def WeightCriteria.Matches (c : WeightCriteria) (w : Int) : Bool :=
  match c.compare with
  | .any => true
  | .equals => w = c.qualifier
  | .atLeast => w ≥ c.qualifier
  | .atMost => w ≤ c.qualifier

/-- Rendering of a weight comparison operator for tooltips. -/
def weightCompareWord : WeightCompareType → Str
  | .any => "is anything".toList
  | .equals => "is ".toList
  | .atLeast => "is at least ".toList
  | .atMost => "is at most ".toList

/-- Modelled from the spec: the criterion's human-readable description,
"operator + qualifier" (§4.1). -/
def WeightCriteria.describe (c : WeightCriteria) : Str :=
  weightCompareWord c.compare ++ (toString c.qualifier).toList

/-- Modelled from the spec: the equipment view a `ContainedWeightPrereq`
consults — `Equipment` is not under `src/`.  It carries the container flag and
the extended and adjusted weights (in the sheet's default units, the only
units the prerequisite requests). -/
structure Equipment where
  container : Bool
  extendedWeight : Int
  adjustedWeight : Int
deriving DecidableEq

/-- Modelled from the spec: `HasText` renders the `Has` flag as the tooltip
phrase `"has"` / `"does not have"` (§4.4); the helper is not under `src/`. -/
def hasText (has : Bool) : Str :=
  if has then "has".toList else "does not have".toList

/-- The fixed tooltip fragment written by `ContainedWeightPrereq.Satisfied`. -/
def containedWeightText : Str := " a contained weight which ".toList

/-- `ContainedWeightPrereq` (`Parent` and the constant `Type` discriminant
play no role in the claims and are omitted). -/
structure ContainedWeightPrereq where
  has : Bool
  weightCriteria : WeightCriteria
deriving DecidableEq

/-- The variant-level outcome computed by `Satisfied` before the `Has`
inversion (`contained_weight_prereq.go:69-76`): `false` when the excluded
item is not an `*Equipment`; for an equipment item, `true` when it is not a
container, and otherwise the weight criterion applied to the difference of
extended and adjusted weight. -/
def ContainedWeightPrereq.variantSatisfied (c : ContainedWeightPrereq) (_entity : Entity)
    (exclude : Option Equipment) : Bool :=
  match exclude with
  | none => false
  | some eqp =>
    if !eqp.container then true
    else c.weightCriteria.Matches (eqp.extendedWeight - eqp.adjustedWeight)

/-- `ContainedWeightPrereq.Satisfied` (`contained_weight_prereq.go:68-87`).
The `*xio.ByteBuffer` argument is modelled by a flag saying whether a buffer
was supplied plus the returned list of written segments (empty when nothing
is written). -/
def ContainedWeightPrereq.Satisfied (c : ContainedWeightPrereq) (entity : Entity)
    (exclude : Option Equipment) (hasTooltip : Bool) (pfx : Str) : Bool × List Str :=
  let satisfied := c.variantSatisfied entity exclude
  let satisfied := if !c.has then !satisfied else satisfied
  let written : List Str :=
    if !satisfied && hasTooltip then
      [pfx, hasText c.has, containedWeightText, c.weightCriteria.describe]
    else []
  (satisfied, written)

/-! ### WeaponBonus feature-map keys (`model/gurps/nameables.go`, second unit) -/

/-- Modelled from the spec: string-criterion comparison operators (§3). -/
inductive StrCompareType
  | any
  | is
  | isNot
  | contains
  | startsWith
  | endsWith
deriving DecidableEq

/-- Modelled from the spec: a string criterion — operator plus qualifier. -/
structure StringCriteria where
  compare : StrCompareType
  qualifier : Str
deriving DecidableEq

/-- Modelled from the spec: numeric-criterion comparison operators (§3). -/
inductive NumCompareType
  | any
  | equals
  | atLeast
  | atMost
deriving DecidableEq

/-- Modelled from the spec: a numeric criterion — operator plus qualifier. -/
structure NumericCriteria where
  compare : NumCompareType
  qualifier : Int
deriving DecidableEq

/-- The closed `weapon.SelectionType` enumeration handled by
`FeatureMapKey`. -/
inductive WeaponSelectionType
  | withRequiredSkill
  | thisWeapon
  | withName
deriving DecidableEq

/-- `ThisWeaponID`, the fixed sentinel key `"\u0001"`. -/
def ThisWeaponID : Str := ['\u0001']

/-- `WeaponNamedIDPrefix`, the key stem for "weapon named" selections. -/
def WeaponNamedID : Str := "weapon_named.".toList

/-- Modelled from the spec: `SkillNameID`, the key stem for
"with required skill" selections, declared elsewhere in the repository; no
claim depends on its concrete value. -/
def SkillNameID : Str := "skill.name".toList

/-- `WeaponBonus` — the fields `FeatureMapKey` and its claims consult. -/
structure WeaponBonus where
  percent : Bool
  selectionType : WeaponSelectionType
  nameCriteria : StringCriteria
  specializationCriteria : StringCriteria
  relativeLevelCriteria : NumericCriteria
  tagsCriteria : StringCriteria
  amount : Int
  level : Int
deriving DecidableEq

/-- `WeaponBonus.buildKey` (`nameables.go:195-201`): the exact key
`stem ++ "/" ++ name-qualifier` when the name criterion compares as `Is` and
both the specialization and tags criteria compare as `Any`, and the wildcard
key `stem ++ "*"` otherwise. -/
def WeaponBonus.buildKey (w : WeaponBonus) (stem : Str) : Str :=
  if w.nameCriteria.compare = .is ∧
      (w.specializationCriteria.compare = .any ∧ w.tagsCriteria.compare = .any) then
    stem ++ ('/' :: w.nameCriteria.qualifier)
  else
    stem ++ ['*']

/-- `WeaponBonus.FeatureMapKey` (`nameables.go:181-193`).  The Go `default`
branch is a fatal programming-error path for an out-of-enumeration value and
cannot be reached from the closed selection-type model. -/
def WeaponBonus.FeatureMapKey (w : WeaponBonus) : Str :=
  match w.selectionType with
  | .withRequiredSkill => w.buildKey SkillNameID
  | .thisWeapon => ThisWeaponID
  | .withName => w.buildKey WeaponNamedID

/-! ### Concrete instances used by witnesses and counterexamples -/

/-- A concrete entity whose callbacks are never consulted by the
prerequisite claims. -/
def entity0 : Entity :=
  ⟨0, 0, fun _ _ _ _ => [], fun _ => 0, fun _ => 0, fun _ => 0, ⟨false⟩⟩

/-! ### Claim theorems -/

/-- C9: `CloneWithoutLevelOrPoints` zeroes `Level`, `AdjLevel` and `Points`
and preserves `DefaultType`, `Name`, `Specialization` and `Modifier`; the
receiver is left unmodified (the embedding is purely functional because the
Go method writes only to a fresh copy). -/
theorem skillDefault_cloneWithoutLevelOrPoints (s : SkillDefault) :
    s.CloneWithoutLevelOrPoints.DefaultType = s.DefaultType ∧
    s.CloneWithoutLevelOrPoints.Name = s.Name ∧
    s.CloneWithoutLevelOrPoints.Specialization = s.Specialization ∧
    s.CloneWithoutLevelOrPoints.Modifier = s.Modifier ∧
    s.CloneWithoutLevelOrPoints.Level = 0 ∧
    s.CloneWithoutLevelOrPoints.AdjLevel = 0 ∧
    s.CloneWithoutLevelOrPoints.Points = 0 :=
  ⟨rfl, rfl, rfl, rfl, rfl, rfl, rfl⟩

/-- C10: `DefaultTypeIsSkillBased` (and `SkillBased`, which performs the same
lookup on the `DefaultType` field) holds exactly when the trimmed, lowercased
type equals the `Skill`, `Parry` or `Block` identifier; and the dispatch in
`SkillLevel` compares the raw `DefaultType` exactly, so a skill-based but
non-canonical spelling such as `" Parry"` falls through to the
`SkillLevelFast` delegation. -/
theorem defaultTypeIsSkillBased_characterization :
    (∀ t : Str, DefaultTypeIsSkillBased t = true ↔
      (toLowerStr (trimSpace t) = SkillID ∨ toLowerStr (trimSpace t) = ParryID ∨
        toLowerStr (trimSpace t) = BlockID)) ∧
    (∀ s : SkillDefault, s.SkillBased = DefaultTypeIsSkillBased s.DefaultType) ∧
    (SkillDefault.SkillBased ⟨" Parry".toList, [], [], 0, 0, 0, 0⟩ = true) ∧
    (∀ (e : Entity) (r : List (Str × Str)) (rp : Bool) (ex : Str → Bool) (r20 : Bool),
      SkillDefault.SkillLevel ⟨" Parry".toList, [], [], 0, 0, 0, 0⟩ e r rp ex r20 =
        SkillDefault.SkillLevelFast ⟨" Parry".toList, [], [], 0, 0, 0, 0⟩ e r rp ex r20) := by
  refine ⟨fun t => ?_, fun s => rfl, by decide, fun e r rp ex r20 => ?_⟩
  · simp [DefaultTypeIsSkillBased, skillBasedDefaultTypes, or_assoc]
  · unfold SkillDefault.SkillLevel
    rw [if_neg (by decide), if_neg (by decide), if_neg (by decide)]

/-- C7 (amended form also proved here): `FeatureMapKey` yields the fixed
sentinel for `ThisWeapon`; for the name-based selections it yields
`stem ++ "/" ++ name-qualifier` exactly when the name criterion compares as
`Is` and both the specialization and tags criteria compare as `Any`, and the
wildcard key `stem ++ "*"` otherwise; and the key depends only on the
selection type and the criteria, so identical selections give identical
keys. -/
theorem weaponBonus_featureMapKey_characterization (w w' : WeaponBonus) :
    (w.selectionType = .thisWeapon → w.FeatureMapKey = ThisWeaponID) ∧
    (w.selectionType = .withRequiredSkill →
      ((w.FeatureMapKey = SkillNameID ++ ('/' :: w.nameCriteria.qualifier) ↔
          (w.nameCriteria.compare = .is ∧ w.specializationCriteria.compare = .any ∧
            w.tagsCriteria.compare = .any)) ∧
        (¬(w.nameCriteria.compare = .is ∧ w.specializationCriteria.compare = .any ∧
            w.tagsCriteria.compare = .any) →
          w.FeatureMapKey = SkillNameID ++ ['*']))) ∧
    (w.selectionType = .withName →
      ((w.FeatureMapKey = WeaponNamedID ++ ('/' :: w.nameCriteria.qualifier) ↔
          (w.nameCriteria.compare = .is ∧ w.specializationCriteria.compare = .any ∧
            w.tagsCriteria.compare = .any)) ∧
        (¬(w.nameCriteria.compare = .is ∧ w.specializationCriteria.compare = .any ∧
            w.tagsCriteria.compare = .any) →
          w.FeatureMapKey = WeaponNamedID ++ ['*']))) ∧
    (w.selectionType = w'.selectionType → w.nameCriteria = w'.nameCriteria →
      w.specializationCriteria = w'.specializationCriteria →
      w.relativeLevelCriteria = w'.relativeLevelCriteria →
      w.tagsCriteria = w'.tagsCriteria → w.FeatureMapKey = w'.FeatureMapKey) := by
  have hkey : ∀ stem : Str, stem ++ ['*'] ≠ stem ++ ('/' :: w.nameCriteria.qualifier) := by
    intro stem h
    have h' := List.append_cancel_left h
    simp at h'
  refine ⟨fun h => ?_, fun h => ?_, fun h => ?_, fun h1 h2 h3 h4 h5 => ?_⟩
  · simp [WeaponBonus.FeatureMapKey, h]
  · constructor
    · by_cases hc : w.nameCriteria.compare = .is ∧ w.specializationCriteria.compare = .any ∧
        w.tagsCriteria.compare = .any
      · simp [WeaponBonus.FeatureMapKey, WeaponBonus.buildKey, h, hc, and_assoc]
      · have : w.FeatureMapKey = SkillNameID ++ ['*'] := by
          simp only [WeaponBonus.FeatureMapKey, h, WeaponBonus.buildKey]
          rw [if_neg hc]
        rw [this]
        exact ⟨fun hx => absurd hx (hkey _), fun hx => absurd hx hc⟩
    · intro hc
      simp only [WeaponBonus.FeatureMapKey, h, WeaponBonus.buildKey]
      rw [if_neg hc]
  · constructor
    · by_cases hc : w.nameCriteria.compare = .is ∧ w.specializationCriteria.compare = .any ∧
        w.tagsCriteria.compare = .any
      · simp [WeaponBonus.FeatureMapKey, WeaponBonus.buildKey, h, hc, and_assoc]
      · have : w.FeatureMapKey = WeaponNamedID ++ ['*'] := by
          simp only [WeaponBonus.FeatureMapKey, h, WeaponBonus.buildKey]
          rw [if_neg hc]
        rw [this]
        exact ⟨fun hx => absurd hx (hkey _), fun hx => absurd hx hc⟩
    · intro hc
      simp only [WeaponBonus.FeatureMapKey, h, WeaponBonus.buildKey]
      rw [if_neg hc]
  · simp only [WeaponBonus.FeatureMapKey, WeaponBonus.buildKey, h1, h2, h3, h5]

/-- C7 witness: a concrete `WithRequiredSkill` bonus with an exact-match name
criterion and wildcard secondary criteria receives the exact key, and an
identical copy receives the same key. -/
theorem weaponBonus_featureMapKey_witness :
    WeaponBonus.FeatureMapKey
        ⟨false, .withRequiredSkill, ⟨.is, ['A']⟩, ⟨.any, []⟩, ⟨.atLeast, 0⟩, ⟨.any, []⟩, 1, 0⟩ =
      SkillNameID ++ ('/' :: ['A']) ∧
    WeaponBonus.FeatureMapKey
        ⟨false, .withRequiredSkill, ⟨.is, ['A']⟩, ⟨.any, []⟩, ⟨.atLeast, 0⟩, ⟨.any, []⟩, 1, 0⟩ =
      WeaponBonus.FeatureMapKey
        ⟨true, .withRequiredSkill, ⟨.is, ['A']⟩, ⟨.any, []⟩, ⟨.atLeast, 0⟩, ⟨.any, []⟩, 2, 3⟩ :=
  ⟨((weaponBonus_featureMapKey_characterization
      ⟨false, .withRequiredSkill, ⟨.is, ['A']⟩, ⟨.any, []⟩, ⟨.atLeast, 0⟩, ⟨.any, []⟩, 1, 0⟩
      ⟨false, .withRequiredSkill, ⟨.is, ['A']⟩, ⟨.any, []⟩, ⟨.atLeast, 0⟩, ⟨.any, []⟩, 1, 0⟩).2.1
      rfl).1.mpr ⟨rfl, rfl, rfl⟩,
    (weaponBonus_featureMapKey_characterization
      ⟨false, .withRequiredSkill, ⟨.is, ['A']⟩, ⟨.any, []⟩, ⟨.atLeast, 0⟩, ⟨.any, []⟩, 1, 0⟩
      ⟨true, .withRequiredSkill, ⟨.is, ['A']⟩, ⟨.any, []⟩, ⟨.atLeast, 0⟩, ⟨.any, []⟩, 2, 3⟩).2.2.2
      rfl rfl rfl rfl rfl⟩

/-- C1 counterexample: with `Has = true` and a non-container equipment item
excluded, `Satisfied` returns `true` — refuting the claim that a
non-equipment-container exclude makes the prerequisite unsatisfied
regardless of `Has`.  (In the source, `satisfied = !eqp.Container()` makes a
non-container equipment item satisfy the variant check vacuously.) -/
theorem containedWeight_nonContainer_counterexample :
    (ContainedWeightPrereq.Satisfied ⟨true, ⟨.atMost, 5⟩⟩ entity0 (some ⟨false, 3, 1⟩)
        false []).1 = true := rfl

/-- C1 (amended): when the excluded item is not an `*Equipment` at all, the
variant check is unsatisfied and `Satisfied` returns `!Has`; when it is a
non-container equipment item, the weight comparison is skipped, the variant
check holds vacuously, and `Satisfied` returns `Has`. -/
theorem containedWeight_nonContainer (c : ContainedWeightPrereq) (e : Entity) (hb : Bool)
    (pfx : Str) :
    ((c.Satisfied e none hb pfx).1 = !c.has) ∧
    (∀ eqp : Equipment, eqp.container = false →
      (c.Satisfied e (some eqp) hb pfx).1 = c.has) := by
  constructor
  · cases hc : c.has <;>
      simp [ContainedWeightPrereq.Satisfied, ContainedWeightPrereq.variantSatisfied, hc]
  · intro eqp heq
    cases hc : c.has <;>
      simp [ContainedWeightPrereq.Satisfied, ContainedWeightPrereq.variantSatisfied, heq, hc]

/-- C1 witness: the amended statement evaluated at concrete inputs. -/
theorem containedWeight_nonContainer_witness :
    (ContainedWeightPrereq.Satisfied ⟨false, ⟨.atMost, 5⟩⟩ entity0 none true ['x']).1 = !false ∧
    (ContainedWeightPrereq.Satisfied ⟨true, ⟨.atMost, 5⟩⟩ entity0 (some ⟨false, 3, 1⟩) true
        []).1 = true :=
  ⟨(containedWeight_nonContainer ⟨false, ⟨.atMost, 5⟩⟩ entity0 true ['x']).1,
    (containedWeight_nonContainer ⟨true, ⟨.atMost, 5⟩⟩ entity0 true []).2 ⟨false, 3, 1⟩ rfl⟩

/-- C3: the final result of `Satisfied` is the variant outcome when
`Has = true` and its negation when `Has = false`; text is written to a
supplied tooltip buffer exactly when the final result is `false`; and what is
then written is the prefix, the `"has"`/`"does not have"` phrase selected by
`Has` (not by the final result), the fixed fragment, and the criterion's
description. -/
theorem containedWeight_truthTable (c : ContainedWeightPrereq) (e : Entity)
    (ex : Option Equipment) (hb : Bool) (pfx : Str) :
    ((c.Satisfied e ex hb pfx).1 =
      (if c.has then c.variantSatisfied e ex else !(c.variantSatisfied e ex))) ∧
    ((c.Satisfied e ex hb pfx).2 ≠ [] ↔ ((c.Satisfied e ex hb pfx).1 = false ∧ hb = true)) ∧
    ((c.Satisfied e ex hb pfx).1 = false → hb = true →
      (c.Satisfied e ex hb pfx).2 =
        [pfx, hasText c.has, containedWeightText, c.weightCriteria.describe]) := by
  cases hc : c.has <;> cases hb <;> cases hv : c.variantSatisfied e ex <;>
    simp [ContainedWeightPrereq.Satisfied, hv, hc]

/-- C3 witness: a prerequisite with `Has = true` and no equipment excluded is
unsatisfied, and the written tooltip segments carry the `Has`-selected
phrase. -/
theorem containedWeight_truthTable_witness :
    (ContainedWeightPrereq.Satisfied ⟨true, ⟨.atMost, 5⟩⟩ entity0 none true ['p']).2 =
      [['p'], hasText true, containedWeightText, WeightCriteria.describe ⟨.atMost, 5⟩] :=
  (containedWeight_truthTable ⟨true, ⟨.atMost, 5⟩⟩ entity0 none true ['p']).2.2 rfl rfl

/-- Net effect on one key of the insertion fold inside `ExtractNameables`:
the key is remapped exactly when it is a segment at an odd index below the
marker count, and the inserted value depends only on the key, so later
duplicates agree. -/
theorem extract_foldl_lookup (existing : Str → Option Str) (count : Nat)
    (l : List (Nat × Str)) (m : Str → Option Str) (k : Str) :
    (l.foldl
      (fun m' p =>
        if p.1 % 2 = 1 ∧ p.1 < count then
          fun k' => if k' = p.2 then some ((existing p.2).getD p.2) else m' k'
        else m') m) k =
    if k ∈ (l.filter (fun p => decide (p.1 % 2 = 1 ∧ p.1 < count))).map Prod.snd then
      some ((existing k).getD k)
    else m k := by
  induction l generalizing m with
  | nil => simp
  | cons p t ih =>
    simp only [List.foldl_cons]
    by_cases hp : p.1 % 2 = 1 ∧ p.1 < count
    · rw [List.filter_cons_of_pos (by simpa using hp), List.map_cons, if_pos hp, ih]
      by_cases hk : k ∈ (t.filter (fun q => decide (q.1 % 2 = 1 ∧ q.1 < count))).map Prod.snd
      · rw [if_pos hk, if_pos (List.mem_cons_of_mem _ hk)]
      · by_cases hkp : k = p.2
        · subst hkp
          rw [if_neg hk, if_pos (List.mem_cons_self _ _), if_pos rfl]
        · rw [if_neg hk, if_neg hkp, if_neg (fun h => (List.mem_cons.mp h).elim hkp hk)]
    · rw [List.filter_cons_of_neg (by simpa using hp), if_neg hp, ih]

/-- C4: `ExtractNameables` maps exactly the candidate keys — the split
segments at odd 0-based index strictly below the number of `@` occurrences,
provided that count exceeds 1 — to `existing[key]` when defined and to the
key itself otherwise, and leaves every other key of `m` (and all of `m`, when
the marker occurs 0 or 1 times) unchanged. -/
theorem extractNameables_spec (str : Str) (m existing : Str → Option Str) (k : Str) :
    ExtractNameables str m existing k =
      if str.count '@' > 1 ∧ k ∈ extractCandidates str then some ((existing k).getD k)
      else m k := by
  unfold ExtractNameables extractCandidates
  by_cases h : str.count '@' > 1
  · simp only [h, if_true, true_and]
    exact extract_foldl_lookup existing (str.count '@') (splitOnChar '@' str).enum m k
  · simp [h]

/-- Under the no-stale-cache hypothesis, the full scan `best` and the cached
scan `bestFast` agree: whenever a candidate's recomputed level equals its
cached level, the two fold steps coincide. -/
theorem best_eq_bestFast (s : SkillDefault) (e : Entity) (r : List (Str × Str))
    (rp : Bool) (ex : Str → Bool)
    (h : ∀ sk ∈ e.skillNamed (s.NameWithReplacements r) (s.SpecializationWithReplacements r)
      rp ex, sk.calculateLevel ex = sk.levelDataLevel) :
    s.best e r rp ex = s.bestFast e r rp ex := by
  unfold SkillDefault.best SkillDefault.bestFast
  refine List.foldl_ext _ _ _ (fun b sk hsk => ?_)
  have hc := h sk hsk
  simp only [hc]
  by_cases hb : b < sk.levelDataLevel
  · rw [if_pos hb, if_pos hb]
  · rw [if_neg hb, if_neg hb]

/-- C5: when every matching skill's cached level equals its freshly
recomputed level, `SkillLevel` and `SkillLevelFast` return the same value
(every non-skill-family type is delegated to the fast path by `SkillLevel`
unconditionally). -/
theorem skillLevel_eq_skillLevelFast (s : SkillDefault) (e : Entity) (r : List (Str × Str))
    (rp : Bool) (ex : Str → Bool) (r20 : Bool)
    (h : ∀ sk ∈ e.skillNamed (s.NameWithReplacements r) (s.SpecializationWithReplacements r)
      rp ex, sk.calculateLevel ex = sk.levelDataLevel) :
    s.SkillLevel e r rp ex r20 = s.SkillLevelFast e r rp ex r20 := by
  have hb := best_eq_bestFast s e r rp ex h
  unfold SkillDefault.SkillLevel SkillDefault.SkillLevelFast
  by_cases h1 : s.DefaultType = ParryID
  · simp [h1, hb, ParryID, DodgeID, BlockID, SkillID]
  · by_cases h2 : s.DefaultType = BlockID
    · simp [h2, hb, ParryID, DodgeID, BlockID, SkillID]
    · by_cases h3 : s.DefaultType = SkillID
      · simp [h3, hb, ParryID, DodgeID, BlockID, SkillID]
      · rw [if_neg h1, if_neg h2, if_neg h3]

/-- C5 witness: a concrete entity with one matching skill whose cache is
fresh; both resolution speeds agree. -/
theorem skillLevel_eq_skillLevelFast_witness :
    SkillDefault.SkillLevel ⟨"parry".toList, ['S'], [], 1, 0, 0, 0⟩
        ⟨2, 0, fun _ _ _ _ => [⟨12, fun _ => 12⟩], fun _ => 0, fun _ => 0, fun _ => 0, ⟨false⟩⟩
        [] true (fun _ => false) false =
      SkillDefault.SkillLevelFast ⟨"parry".toList, ['S'], [], 1, 0, 0, 0⟩
        ⟨2, 0, fun _ _ _ _ => [⟨12, fun _ => 12⟩], fun _ => 0, fun _ => 0, fun _ => 0, ⟨false⟩⟩
        [] true (fun _ => false) false :=
  skillLevel_eq_skillLevelFast ⟨"parry".toList, ['S'], [], 1, 0, 0, 0⟩
    ⟨2, 0, fun _ _ _ _ => [⟨12, fun _ => 12⟩], fun _ => 0, fun _ => 0, fun _ => 0, ⟨false⟩⟩
    [] true (fun _ => false) false
    (by intro sk hsk
        simp only [List.mem_singleton] at hsk
        subst hsk
        rfl)

/-- The running best of the full scan never drops below its seed, so `best`
is bounded below by the `fxp.Min` sentinel it starts from. -/
theorem best_ge_fxpMin (s : SkillDefault) (e : Entity) (r : List (Str × Str))
    (rp : Bool) (ex : Str → Bool) : fxpMin ≤ s.best e r rp ex := by
  unfold SkillDefault.best
  generalize e.skillNamed (s.NameWithReplacements r) (s.SpecializationWithReplacements r)
    rp ex = l
  have main : ∀ (l' : List Skill) (b : Int),
      b ≤ l'.foldl
        (fun best sk =>
          if best < sk.levelDataLevel then
            let level := sk.calculateLevel ex
            if best < level then level else best
          else best) b := by
    intro l'
    induction l' with
    | nil => intro b; exact le_refl b
    | cons sk t ih =>
      intro b
      refine le_trans ?_ (ih _)
      by_cases h1 : b < sk.levelDataLevel
      · simp only [if_pos h1]
        by_cases h2 : b < sk.calculateLevel ex
        · simp only [if_pos h2]
          exact le_of_lt h2
        · simp only [if_neg h2]
          exact le_rfl
      · simp only [if_neg h1]
        exact le_rfl
  exact main l fxpMin

/-- C6: for a `Parry` (respectively `Block`) default, an empty match list
leaves `best` at the `fxp.Min` sentinel; the sentinel propagates through
`SkillLevel` unchanged, with the `Modifier` not added; and otherwise the
result is `floor(best / 2) + 3 +` the entity's Parry (respectively Block)
bonus `+ Modifier`.  The bonus bound keeps the derived value away from the
sentinel, as any value representable without `int64` overflow is. -/
theorem skillDefault_parryBlock_formula (s : SkillDefault) (e : Entity) (r : List (Str × Str))
    (rp : Bool) (ex : Str → Bool) (r20 : Bool) :
    (e.skillNamed (s.NameWithReplacements r) (s.SpecializationWithReplacements r) rp ex = [] →
      s.best e r rp ex = fxpMin) ∧
    (s.DefaultType = ParryID →
      (s.best e r rp ex = fxpMin → s.SkillLevel e r rp ex r20 = fxpMin) ∧
      (s.best e r rp ex ≠ fxpMin → -4611686018427387904 ≤ e.parryBonus →
        s.SkillLevel e r rp ex r20 =
          fxpHalf (s.best e r rp ex) + 3 + e.parryBonus + s.Modifier)) ∧
    (s.DefaultType = BlockID →
      (s.best e r rp ex = fxpMin → s.SkillLevel e r rp ex r20 = fxpMin) ∧
      (s.best e r rp ex ≠ fxpMin → -4611686018427387904 ≤ e.blockBonus →
        s.SkillLevel e r rp ex r20 =
          fxpHalf (s.best e r rp ex) + 3 + e.blockBonus + s.Modifier)) := by
  have hge := best_ge_fxpMin s e r rp ex
  refine ⟨fun hemp => ?_, fun h1 => ⟨fun hmin => ?_, fun hne hbound => ?_⟩,
    fun h2 => ⟨fun hmin => ?_, fun hne hbound => ?_⟩⟩
  · unfold SkillDefault.best
    rw [hemp]
    rfl
  · unfold SkillDefault.SkillLevel
    rw [if_pos h1]
    simp only [hmin]
    simp [SkillDefault.finalLevel]
  · unfold SkillDefault.SkillLevel
    rw [if_pos h1]
    simp only [if_pos hne]
    have hv : fxpHalf (s.best e r rp ex) + 3 + e.parryBonus ≠ fxpMin := by
      unfold fxpHalf
      unfold fxpMin at *
      omega
    unfold SkillDefault.finalLevel
    rw [if_pos hv]
  · have h1 : ¬s.DefaultType = ParryID := by rw [h2]; decide
    unfold SkillDefault.SkillLevel
    rw [if_neg h1, if_pos h2]
    simp only [hmin]
    simp [SkillDefault.finalLevel]
  · have h1 : ¬s.DefaultType = ParryID := by rw [h2]; decide
    unfold SkillDefault.SkillLevel
    rw [if_neg h1, if_pos h2]
    simp only [if_pos hne]
    have hv : fxpHalf (s.best e r rp ex) + 3 + e.blockBonus ≠ fxpMin := by
      unfold fxpHalf
      unfold fxpMin at *
      omega
    unfold SkillDefault.finalLevel
    rw [if_pos hv]

/-- A concrete entity whose only matching skill has (fresh) level 12, with
Parry bonus 0. -/
def entityParry12 : Entity :=
  ⟨0, 0, fun _ _ _ _ => [⟨12, fun _ => 12⟩], fun _ => 0, fun _ => 0, fun _ => 0, ⟨false⟩⟩

/-- C6 witness: best matching level 12 and Parry bonus 0 resolve to
`floor(12/2) + 3 + 0 = 9`; with `Modifier = +1`, to 10. -/
theorem skillDefault_parryBlock_formula_witness :
    SkillDefault.SkillLevel ⟨"parry".toList, ['S'], [], 0, 0, 0, 0⟩ entityParry12 []
        true (fun _ => false) false = 9 ∧
    SkillDefault.SkillLevel ⟨"parry".toList, ['S'], [], 1, 0, 0, 0⟩ entityParry12 []
        true (fun _ => false) false = 10 :=
  ⟨(((skillDefault_parryBlock_formula ⟨"parry".toList, ['S'], [], 0, 0, 0, 0⟩ entityParry12 []
      true (fun _ => false) false).2.1 rfl).2 (by decide) (by decide)).trans (by decide),
   (((skillDefault_parryBlock_formula ⟨"parry".toList, ['S'], [], 1, 0, 0, 0⟩ entityParry12 []
      true (fun _ => false) false).2.1 rfl).2 (by decide) (by decide)).trans (by decide)⟩

/-- `Char.toNat` is injective, so a string's byte image determines it. -/
theorem charToNat_inj {a b : Char} (h : a.toNat = b.toNat) : a = b := by
  rw [← Char.ofNat_toNat a, h, Char.ofNat_toNat]

/-- `strBytes` is injective. -/
theorem strBytes_inj {s t : Str} (h : strBytes s = strBytes t) : s = t :=
  List.map_injective_iff.mpr (fun _ _ hab => charToNat_inj hab) h

/-- Fixed-width little-endian byte encodings are injective below `256 ^ w`. -/
theorem leBytes_inj : ∀ (w n1 n2 : Nat), n1 < 256 ^ w → n2 < 256 ^ w →
    leBytes w n1 = leBytes w n2 → n1 = n2 := by
  intro w
  induction w with
  | zero =>
    intro n1 n2 h1 h2 _
    simp only [pow_zero, Nat.lt_one_iff] at h1 h2
    omega
  | succ w ih =>
    intro n1 n2 h1 h2 h
    simp only [leBytes, List.cons.injEq] at h
    obtain ⟨hm, hr⟩ := h
    rw [pow_succ] at h1 h2
    have e1 : n1 / 256 < 256 ^ w := (Nat.div_lt_iff_lt_mul (by norm_num)).mpr h1
    have e2 : n2 / 256 < 256 ^ w := (Nat.div_lt_iff_lt_mul (by norm_num)).mpr h2
    have := ih _ _ e1 e2 hr
    omega

/-- The 8-byte little-endian encoding is injective on the `int64` range. -/
theorem int64LE_inj {m1 m2 : Int}
    (hl1 : -9223372036854775808 ≤ m1) (hu1 : m1 < 9223372036854775808)
    (hl2 : -9223372036854775808 ≤ m2) (hu2 : m2 < 9223372036854775808)
    (h : int64LE m1 = int64LE m2) : m1 = m2 := by
  unfold int64LE at h
  have hp : (256 : Nat) ^ 8 = 18446744073709551616 := by norm_num
  have h1 : (m1 % 18446744073709551616).toNat < 256 ^ 8 := by omega
  have h2 : (m2 % 18446744073709551616).toNat < 256 ^ 8 := by omega
  have := leBytes_inj 8 _ _ h1 h2 h
  omega

/-- C2 counterexample: two `SkillDefault` values whose source fields differ
(`DefaultType`/`Name` split the same characters at a different boundary)
write identical byte sequences, because the hashed fields are concatenated
without length prefixes or separators. -/
theorem skillDefault_hash_counterexample :
    SkillDefault.hashStream ⟨['a', 'b'], ['c'], [], 0, 0, 0, 0⟩ =
      SkillDefault.hashStream ⟨['a'], ['b', 'c'], [], 0, 0, 0, 0⟩ ∧
    (⟨['a', 'b'], ['c'], [], 0, 0, 0, 0⟩ : SkillDefault).DefaultType ≠
      (⟨['a'], ['b', 'c'], [], 0, 0, 0, 0⟩ : SkillDefault).DefaultType := by
  exact ⟨rfl, by decide⟩

/-- C2 (amended): equal source fields give identical byte sequences
regardless of `Level`, `AdjLevel` and `Points`; and changing exactly one
source field (the other three held fixed, `Modifier` within the `int64`
range) changes the byte sequence.  Pairs differing in two or more source
fields may collide, as the counterexample shows. -/
theorem skillDefault_hashStream_source_fields (s1 s2 : SkillDefault)
    (hl1 : -9223372036854775808 ≤ s1.Modifier) (hu1 : s1.Modifier < 9223372036854775808)
    (hl2 : -9223372036854775808 ≤ s2.Modifier) (hu2 : s2.Modifier < 9223372036854775808) :
    ((s1.DefaultType = s2.DefaultType ∧ s1.Name = s2.Name ∧
        s1.Specialization = s2.Specialization ∧ s1.Modifier = s2.Modifier) →
      s1.hashStream = s2.hashStream) ∧
    (s1.hashStream = s2.hashStream →
      ((s1.Name = s2.Name → s1.Specialization = s2.Specialization →
          s1.Modifier = s2.Modifier → s1.DefaultType = s2.DefaultType) ∧
        (s1.DefaultType = s2.DefaultType → s1.Specialization = s2.Specialization →
          s1.Modifier = s2.Modifier → s1.Name = s2.Name) ∧
        (s1.DefaultType = s2.DefaultType → s1.Name = s2.Name →
          s1.Modifier = s2.Modifier → s1.Specialization = s2.Specialization) ∧
        (s1.DefaultType = s2.DefaultType → s1.Name = s2.Name →
          s1.Specialization = s2.Specialization → s1.Modifier = s2.Modifier))) := by
  constructor
  · rintro ⟨h1, h2, h3, h4⟩
    unfold SkillDefault.hashStream
    rw [h1, h2, h3, h4]
  · intro hs
    unfold SkillDefault.hashStream at hs
    refine ⟨fun hn hsp hm => ?_, fun hd hsp hm => ?_, fun hd hn hm => ?_, fun hd hn hsp => ?_⟩
    · rw [hn, hsp, hm] at hs
      exact strBytes_inj
        (List.append_cancel_right (List.append_cancel_right (List.append_cancel_right hs)))
    · rw [hd, hsp, hm] at hs
      exact strBytes_inj
        (List.append_cancel_left (List.append_cancel_right (List.append_cancel_right hs)))
    · rw [hd, hn, hm] at hs
      exact strBytes_inj (List.append_cancel_left (List.append_cancel_right hs))
    · rw [hd, hn, hsp] at hs
      exact int64LE_inj hl1 hu1 hl2 hu2 (List.append_cancel_left hs)

/-- C2 witness: identical source fields with different transient `Level`,
`AdjLevel`, `Points` hash identically. -/
theorem skillDefault_hashStream_witness :
    SkillDefault.hashStream ⟨['a'], ['b'], ['c'], 5, 7, 8, 9⟩ =
      SkillDefault.hashStream ⟨['a'], ['b'], ['c'], 5, 0, 0, 0⟩ :=
  (skillDefault_hashStream_source_fields ⟨['a'], ['b'], ['c'], 5, 7, 8, 9⟩
      ⟨['a'], ['b'], ['c'], 5, 0, 0, 0⟩ (by decide) (by decide) (by decide) (by decide)).1
    ⟨rfl, rfl, rfl, rfl⟩

/-- Replacing a pattern that does not occur in the string leaves it
unchanged, for any fuel. -/
theorem replaceAllAux_id (p v : Str) : ∀ (fuel : Nat) (s : Str),
    occursWithin p s = false → replaceAllAux p v fuel s = s := by
  intro fuel
  induction fuel with
  | zero => intro s _; rfl
  | succ fuel ih =>
    intro s h
    cases s with
    | nil => rfl
    | cons c rest =>
      simp only [occursWithin, Bool.or_eq_false_iff] at h
      obtain ⟨h1, h2⟩ := h
      simp only [replaceAllAux]
      rw [if_neg (by simp [h1]), ih rest h2]

/-- `replaceAll` with an absent pattern is the identity. -/
theorem replaceAll_id (s p v : Str) (h : occursWithin p s = false) : replaceAll s p v = s :=
  replaceAllAux_id p v s.length s h

/-- Folding `replaceAll` over map entries whose tokens are all absent from
the string is the identity. -/
theorem foldl_replaceAll_id (t : Str) : ∀ (m : List (Str × Str)),
    (∀ kv ∈ m, occursWithin ('@' :: (kv.1 ++ ['@'])) t = false) →
    m.foldl (fun s kv => replaceAll s ('@' :: (kv.1 ++ ['@'])) kv.2) t = t := by
  intro m
  induction m with
  | nil => intro _; rfl
  | cons kv tl ih =>
    intro h
    rw [List.foldl_cons, replaceAll_id _ _ _ (h kv (List.mem_cons_self _ _))]
    exact ih (fun kv' h' => h kv' (List.mem_cons_of_mem _ h'))

/-- C8 counterexample: values containing no `@` do not make `ApplyNameables`
idempotent.  With entries `b → "X"`, `a → "b"` (in this iteration order) and
input `"@@a@@"`, the first application produces `"@b@"` — substituting `a`
recreates a complete token of the key `b` between surviving markers — and
the second application collapses it to `"X"`. -/
theorem applyNameables_not_idempotent_counterexample :
    (∀ kv ∈ ([(['b'], ['X']), (['a'], ['b'])] : List (Str × Str)), '@' ∉ kv.2) ∧
    ApplyNameables (ApplyNameables ['@', '@', 'a', '@', '@'] [(['b'], ['X']), (['a'], ['b'])])
        [(['b'], ['X']), (['a'], ['b'])] ≠
      ApplyNameables ['@', '@', 'a', '@', '@'] [(['b'], ['X']), (['a'], ['b'])] := by decide

/-- C8 (amended): `ApplyNameables` is idempotent whenever the once-applied
text no longer contains a complete `@key@` token for any key of the map —
which the absence of `@` in the replacement values does not by itself
guarantee, since a value may combine with surviving markers to form another
key's token. -/
theorem applyNameables_idempotent (str : Str) (m : List (Str × Str))
    (h : ∀ kv ∈ m, occursWithin ('@' :: (kv.1 ++ ['@'])) (ApplyNameables str m) = false) :
    ApplyNameables (ApplyNameables str m) m = ApplyNameables str m := by
  have key : ∀ t : Str, (∀ kv ∈ m, occursWithin ('@' :: (kv.1 ++ ['@'])) t = false) →
      ApplyNameables t m = t := by
    intro t ht
    unfold ApplyNameables
    by_cases hc : t.count '@' > 1
    · rw [if_pos hc]
      exact foldl_replaceAll_id _ _ ht
    · rw [if_neg hc]
  exact key _ h

/-- C8 witness: a fully substituted text is a fixed point. -/
theorem applyNameables_idempotent_witness :
    ApplyNameables (ApplyNameables ['@', 'a', '@'] [(['a'], ['z'])]) [(['a'], ['z'])] =
      ApplyNameables ['@', 'a', '@'] [(['a'], ['z'])] :=
  applyNameables_idempotent ['@', 'a', '@'] [(['a'], ['z'])] (by decide)
